import Mathlib

/-!
Verification of the render-pipeline sink stages of
`lib/jxl/render_pipeline/stage_write.cc`.

The file embeds the four sink stages as pure Lean functions:

* `WriteToU8Stage::ProcessRow` (RawBufferSink) becomes `writeToU8ProcessRow`,
  returning the list of `(byte offset, byte value)` writes the stage performs
  on the flat output buffer.
* `WriteToPixelCallbackStage::ProcessRow` (PixelCallbackSink) becomes
  `processRowCB`, returning the list of callback invocations (coordinate
  arguments, pixel count and delivered samples).
* `WriteToImageBundleStage::ProcessRow` (FrameBufferSink) and
  `WriteToImage3FStage::ProcessRow` (PlanarBufferSink) become state
  transformers on plane-indexed sample functions.

Float samples are embedded as rationals; the SIMD lane decomposition of the
source collapses to its per-sample effect, which is noted at each definition.
-/

namespace StageWrite

/-- Clamp a sample to the unit interval. Models the hwy call
`Clamp(zero, v, one)`, which expands to `Min(Max(zero, v), one)`. -/
def clamp01 (v : ℚ) : ℚ := min (max v 0) 1

/-- Round to the nearest integer with ties to even. Models hwy `NearestInt`,
which uses the default IEEE rounding mode (nearest, ties to even). -/
def rne (q : ℚ) : ℤ :=
  if q - ⌊q⌋ < 1 / 2 then ⌊q⌋
  else if 1 / 2 < q - ⌊q⌋ then ⌊q⌋ + 1
  else if ⌊q⌋ % 2 = 0 then ⌊q⌋ else ⌊q⌋ + 1

/-- Models `U8FromU32(BitCast(du, n))` in `WriteToU8Stage::ProcessRow`: the
signed 32-bit lane is reinterpreted as unsigned and truncated to 8 bits. -/
def u8FromU32 (n : ℤ) : ℕ := (n % 2 ^ 32).toNat % 2 ^ 8

/-- Models the saturating demotion `DemoteTo(du16, n)` from i32 lanes. -/
def satU16 (n : ℤ) : ℕ := (min 65535 (max 0 n)).toNat

/-- Models the saturating demotion `DemoteTo(du8, n)` from i32 lanes. -/
def satU8 (n : ℤ) : ℕ := (min 255 (max 0 n)).toNat

/-- Models `JXL_BSWAP16`. -/
def bswap16 (n : ℕ) : ℕ := n % 2 ^ 8 * 2 ^ 8 + n / 2 ^ 8

/-- Models a `size_t` value computed from signed intermediate arithmetic:
reduction mod `2 ^ 64`. -/
def sizeT (z : ℤ) : ℕ := (z % 2 ^ 64).toNat

/-- Channel classification returned by `GetChannelMode`. -/
inductive RenderPipelineChannelMode where
  | kIgnored
  | kInput
  | kInOut
deriving DecidableEq

/-! Part 1: `WriteToU8Stage` (RawBufferSink). -/

/-- Construction parameters of `WriteToU8Stage`. -/
structure U8Cfg where
  stride : ℕ
  height : ℕ
  rgba : Bool
  has_alpha : Bool
  alpha_c : ℕ

/-- Bytes per pixel: `rgba_ ? 4 : 3`. -/
def U8Cfg.bytes (cfg : U8Cfg) : ℕ := if cfg.rgba then 4 else 3

/-- Per-sample conversion of `WriteToU8Stage::ProcessRow`:
`U8FromU32(BitCast(du, NearestInt(Mul(Clamp(zero, v, one), mul))))`
with `mul = 255.0f`. The inputs 0, 0.5, 1, 0.25 and the constants are exact
in binary32, so rational arithmetic matches the float computation on them. -/
def u8Sample (v : ℚ) : ℕ := u8FromU32 (rne (clamp01 v * 255))

/-- Models `WriteToU8Stage::ProcessRow` as the list of `(offset, value)` byte
writes into the flat buffer `rgb_`, in store order. The vector loop over
`x1 = RoundUpTo(xsize, Lanes(d))` stores, through `StoreRGBA`, exactly
`min(Lanes, xsize - x)` pixels per iteration, so its net effect is one
interleaved store per pixel `x < xsize`; the model lists those stores
pixel by pixel. `row_in_a` is read only when `has_alpha_`, otherwise the
alpha lane is the constant `Set(d, 255.0f)`. `base_ptr` is
`ypos * stride_ + bytes * (xpos - xextra)` with `xextra == 0` asserted. -/
def writeToU8ProcessRow (cfg : U8Cfg) (rows : ℕ → ℕ → ℚ)
    (xextra xsize xpos ypos : ℕ) : List (ℕ × ℕ) :=
  if cfg.height ≤ ypos then [] else
  let base := ypos * cfg.stride + cfg.bytes * (xpos - xextra)
  (List.range xsize).flatMap (fun x =>
    [(base + cfg.bytes * x, u8Sample (rows 0 x)),
     (base + cfg.bytes * x + 1, u8Sample (rows 1 x)),
     (base + cfg.bytes * x + 2, u8Sample (rows 2 x))] ++
    (if cfg.rgba then
      [(base + cfg.bytes * x + 3,
        if cfg.has_alpha then u8Sample (rows cfg.alpha_c x)
        else u8FromU32 (rne 255))]
     else []))

/-- Models `WriteToU8Stage::GetChannelMode`. -/
def writeToU8GetChannelMode (cfg : U8Cfg) (c : ℕ) : RenderPipelineChannelMode :=
  if c < 3 || (cfg.has_alpha && c == cfg.alpha_c)
  then RenderPipelineChannelMode.kInput
  else RenderPipelineChannelMode.kIgnored

/-- Replay a write list onto a byte buffer, later writes overriding earlier
ones. -/
def applyWrites (ws : List (ℕ × ℕ)) (buf : ℕ → ℕ) : ℕ → ℕ :=
  ws.foldl (fun f w => fun i => if i = w.1 then w.2 else f i) buf

/-! Part 2: `WriteToPixelCallbackStage` (PixelCallbackSink). -/

/-- The eight EXIF orientations, as in `jxl::Orientation`. -/
inductive Orientation where
  | kIdentity
  | kFlipHorizontal
  | kRotate180
  | kFlipVertical
  | kTranspose
  | kRotate90
  | kAntiTranspose
  | kRotate270
deriving DecidableEq

/-- Models `WriteToPixelCallbackStage::ShouldFlipX`. -/
def shouldFlipX (u : Orientation) : Bool :=
  u == Orientation.kFlipHorizontal || u == Orientation.kRotate180 ||
  u == Orientation.kRotate270 || u == Orientation.kAntiTranspose

/-- Models `WriteToPixelCallbackStage::ShouldFlipY`. -/
def shouldFlipY (u : Orientation) : Bool :=
  u == Orientation.kFlipVertical || u == Orientation.kRotate180 ||
  u == Orientation.kRotate90 || u == Orientation.kAntiTranspose

/-- Models `WriteToPixelCallbackStage::ShouldTranspose`. -/
def shouldTranspose (u : Orientation) : Bool :=
  u == Orientation.kTranspose || u == Orientation.kRotate90 ||
  u == Orientation.kRotate270 || u == Orientation.kAntiTranspose

/-- The four output sample types handled by the stage. -/
inductive JxlDataType where
  | JXL_TYPE_FLOAT
  | JXL_TYPE_UINT8
  | JXL_TYPE_UINT16
  | JXL_TYPE_FLOAT16
deriving DecidableEq

/-- One delivered output sample. Numeric narrowing to uint8/uint16 is
computed exactly; `f32swapped`, `f16` and `f16swapped` record the sample
value to which the bit-level operation (`BSwapFloat`, the half-precision
demotion `DemoteTo(df16, v)`, and that demotion followed by
`JXL_BSWAP16`) is applied, keeping the bit pattern itself symbolic. -/
inductive OutSample where
  | f32 (v : ℚ)
  | f32swapped (v : ℚ)
  | u16 (n : ℕ)
  | f16 (v : ℚ)
  | f16swapped (v : ℚ)
  | u8 (n : ℕ)
deriving DecidableEq

/-- Per-sample output conversion of `WriteToPixelCallbackStage::ProcessRow`:
the `data_type_` dispatch at the end of the chunk loop, including the
optional endianness swap. uint16 uses `Mul(Clamp(zero, v, one), 65535)`,
`NearestInt` and a saturating demotion; uint8 likewise with 255. -/
def convertSample (dt : JxlDataType) (swap : Bool) (v : ℚ) : OutSample :=
  match dt, swap with
  | JxlDataType.JXL_TYPE_FLOAT, false => OutSample.f32 v
  | JxlDataType.JXL_TYPE_FLOAT, true => OutSample.f32swapped v
  | JxlDataType.JXL_TYPE_UINT16, false =>
      OutSample.u16 (satU16 (rne (clamp01 v * 65535)))
  | JxlDataType.JXL_TYPE_UINT16, true =>
      OutSample.u16 (bswap16 (satU16 (rne (clamp01 v * 65535))))
  | JxlDataType.JXL_TYPE_FLOAT16, false => OutSample.f16 v
  | JxlDataType.JXL_TYPE_FLOAT16, true => OutSample.f16swapped v
  | JxlDataType.JXL_TYPE_UINT8, _ =>
      OutSample.u8 (satU8 (rne (clamp01 v * 255)))

/-- Modelled from the spec: the clamp constant of alpha unpremultiplication.
The dividing function `UnpremultiplyAlpha` lives in `lib/jxl/alpha.h`, which
is not among the sources here; the spec states that each color channel is
"divided by its alpha (clamped away from division-by-zero)". A concrete
small positive clamp value is used. -/
def kSmallAlpha : ℚ := 1 / 1000000

/-- Modelled from the spec: clamped division of one premultiplied color
sample by alpha. The result is an `Option`: `none` stands for the NaN or
infinity a float division by a zero divisor would produce. Because the
divisor is clamped to at least `kSmallAlpha > 0`, the division in fact
always succeeds. -/
def clampedDiv (x a : ℚ) : Option ℚ :=
  if max kSmallAlpha a = 0 then none else some (x / max kSmallAlpha a)

/-- Modelled from the spec: the effect of the interleaved
`UnpremultiplyAlpha(temp, num_color, xlen)` call on one gathered pixel,
laid out as `num_color` color samples followed by the alpha sample at index
`num_color`: each color sample is divided by the clamped alpha. -/
def unpremulPixel (num_color : ℕ) (pix : List ℚ) : List ℚ :=
  (List.range pix.length).map (fun c =>
    if c < num_color then (clampedDiv (pix.getD c 0) (pix.getD num_color 0)).getD 0
    else pix.getD c 0)

/-- Construction parameters of `WriteToPixelCallbackStage`. -/
structure CBCfg where
  width : ℕ
  height : ℕ
  num_channels : ℕ
  has_alpha : Bool
  unpremul_alpha : Bool
  alpha_c : ℕ
  swap_endianness : Bool
  undo_orientation : Orientation
  data_type : JxlDataType

/-- Derived member `num_color_ = num_channels < 3 ? 1 : 3`. -/
def CBCfg.num_color (cfg : CBCfg) : ℕ := if cfg.num_channels < 3 then 1 else 3

/-- Derived member `want_alpha_ = num_channels == 2 or num_channels == 4`. -/
def CBCfg.want_alpha (cfg : CBCfg) : Bool :=
  cfg.num_channels == 2 || cfg.num_channels == 4

/-- Derived member `flip_x_`. -/
def CBCfg.flip_x (cfg : CBCfg) : Bool := shouldFlipX cfg.undo_orientation

/-- Derived member `flip_y_`. -/
def CBCfg.flip_y (cfg : CBCfg) : Bool := shouldFlipY cfg.undo_orientation

/-- Derived member `transpose_`. -/
def CBCfg.transpose (cfg : CBCfg) : Bool := shouldTranspose cfg.undo_orientation

/-- The constant `kMaxPixelsPerCall = 1024`. -/
def kMaxPixelsPerCall : ℕ := 1024

/-- The sample gathered for output channel `c` at offset `t` (relative to
`xpos`; negative offsets address the left border). Models the
`line_buffers` setup: channels below `num_color_` read the color rows,
the remaining channel reads the alpha row when `has_alpha_` and the
constant-1.0 `opaque_alpha_` array otherwise. The per-chunk pointer
advance by `kMaxPixelsPerCall` keeps `line_buffers[c][ix]` equal to the
row sample at offset `x0 + ix`. `rows` maps a channel index to its row,
indexed relative to `xpos`. -/
def lineSample (cfg : CBCfg) (rows : ℕ → ℤ → ℚ) (c : ℕ) (t : ℤ) : ℚ :=
  if c < cfg.num_color then rows c t
  else if cfg.has_alpha then rows cfg.alpha_c t
  else 1

/-- The gather loop body for one pixel: `temp[j++] = line_buffers[c][ix]`
for `c < num_channels_`. -/
def gatherPixel (cfg : CBCfg) (rows : ℕ → ℤ → ℚ) (t : ℤ) : List ℚ :=
  (List.range cfg.num_channels).map (fun c => lineSample cfg rows c t)

/-- Number of pixels gathered in the chunk starting at `x0`: the inner loop
runs while `ix < kMaxPixelsPerCall` and `x0 + ix < limit`. -/
def chunkLen (limit x0 : ℤ) : ℕ := min kMaxPixelsPerCall (limit - x0).toNat

/-- The pixel reversal performed by the `flip_x_` swap loop, which exchanges
`temp[i + c]` and `temp[last - i + c]` for `i` below half the chunk: pixel
`i` of the result is pixel `xlen - 1 - i` of the input. -/
def flipPixels (l : List (List ℚ)) : List (List ℚ) :=
  (List.range l.length).map (fun i => l.getD (l.length - 1 - i) [])

/-- The `flip_x_` start remap `xstart = width_ - xstart - xlen`, in `size_t`
arithmetic. -/
def flipXStart (width xstart xlen : ℕ) : ℕ :=
  sizeT ((width : ℤ) - xstart - xlen)

/-- One callback invocation: the `(x, y, pixel_count, data)` arguments of
`pixel_callback_.run` (the opaque handle and `thread_id` carry no pixel
data and are omitted). -/
structure CallbackCall where
  x : ℕ
  y : ℕ
  pixel_count : ℕ
  data : List OutSample
deriving DecidableEq

/-- The pixels gathered by the inner `ix` loop of one chunk: pixel `ix`
reads the row samples at offset `x0 + ix`. -/
def chunkPixels (cfg : CBCfg) (rows : ℕ → ℤ → ℚ) (limit x0 : ℤ) :
    List (List ℚ) :=
  (List.range (chunkLen limit x0)).map
    (fun ix : ℕ => gatherPixel cfg rows (x0 + (ix : ℤ)))

/-- The scratch buffer contents of one chunk right before the `data_type_`
dispatch: gathered pixels, unpremultiplied when
`has_alpha_ && want_alpha_ && unpremul_alpha_`, pixel order reversed when
`flip_x_`, each sample converted per `data_type_`/`swap_endianness_`. -/
def chunkConverted (cfg : CBCfg) (rows : ℕ → ℤ → ℚ) (limit x0 : ℤ) :
    List (List OutSample) :=
  let pixels := chunkPixels cfg rows limit x0
  let pixels1 := if cfg.has_alpha && cfg.want_alpha && cfg.unpremul_alpha
                 then pixels.map (unpremulPixel cfg.num_color) else pixels
  let pixels2 := if cfg.flip_x then flipPixels pixels1 else pixels1
  pixels2.map (fun pix =>
    pix.map (convertSample cfg.data_type cfg.swap_endianness))

/-- The `xstart` argument of one chunk: `xpos + x0`, remapped to
`width_ - xstart - xlen` when `flip_x_` (size_t arithmetic as in the
source). -/
def chunkXStart (cfg : CBCfg) (xpos : ℕ) (limit x0 : ℤ) : ℕ :=
  if cfg.flip_x
  then flipXStart cfg.width (sizeT ((xpos : ℤ) + x0)) (chunkLen limit x0)
  else sizeT ((xpos : ℤ) + x0)

/-- One iteration of the chunk loop of
`WriteToPixelCallbackStage::ProcessRow`, starting at offset `x0`, handed
to `WriteToCallback`: under `transpose_` one single-pixel call per pixel
with the coordinate arguments `(ypos, xstart + i)`, otherwise one call
`(xstart, ypos, xlen)` with the whole converted chunk. -/
def processChunk (cfg : CBCfg) (rows : ℕ → ℤ → ℚ) (xpos yout : ℕ)
    (limit x0 : ℤ) : List CallbackCall :=
  if cfg.transpose then
    (List.range (chunkLen limit x0)).map (fun i =>
      { x := yout, y := chunkXStart cfg xpos limit x0 + i, pixel_count := 1,
        data := (chunkConverted cfg rows limit x0).getD i [] })
  else
    [{ x := chunkXStart cfg xpos limit x0, y := yout,
       pixel_count := chunkLen limit x0,
       data := (chunkConverted cfg rows limit x0).flatten }]

/-- The chunk start offsets of the loop
`for (x0 = -xextra; x0 < limit; x0 += kMaxPixelsPerCall)`. -/
def chunkStarts (xextra : ℕ) (limit : ℤ) : List ℤ :=
  (List.range (((limit + xextra).toNat + (kMaxPixelsPerCall - 1)) / kMaxPixelsPerCall)).map
    (fun k : ℕ => -(xextra : ℤ) + (kMaxPixelsPerCall : ℤ) * (k : ℤ))

/-- The loop bound `limit = min(xextra + xsize, width_ - xpos)` (a `ssize_t`;
the subtraction is exact, not wrapped, whenever `xpos ≤ width`, which the
theorems below assume). -/
def chunkLimit (width xextra xsize xpos : ℕ) : ℤ :=
  min ((xextra : ℤ) + xsize) ((width : ℤ) - xpos)

/-- Models `WriteToPixelCallbackStage::ProcessRow` as the list of callback
invocations it performs, in order: nothing when `ypos >= height_`,
otherwise the vertical flip of `ypos` followed by the chunk loop. -/
def processRowCB (cfg : CBCfg) (rows : ℕ → ℤ → ℚ)
    (xextra xsize xpos ypos : ℕ) : List CallbackCall :=
  if cfg.height ≤ ypos then [] else
  let yout := if cfg.flip_y then cfg.height - 1 - ypos else ypos
  let limit := chunkLimit cfg.width xextra xsize xpos
  (chunkStarts xextra limit).flatMap (processChunk cfg rows xpos yout limit)

/-- Models `WriteToPixelCallbackStage::GetChannelMode`. -/
def processRowCBGetChannelMode (cfg : CBCfg) (c : ℕ) : RenderPipelineChannelMode :=
  if c < cfg.num_color || (cfg.has_alpha && c == cfg.alpha_c)
  then RenderPipelineChannelMode.kInput
  else RenderPipelineChannelMode.kIgnored

/-! Part 3: stage setup (`PrepareForThreads`) and its failure path. -/

/-- The external callback object: `Init` returns an opaque handle or null.
Only the initialization interface matters for the setup claims; `none`
models a null handle. -/
structure PixelCallbackM (H : Type) where
  init : ℕ → ℕ → Option H

/-- The per-thread scratch sizes allocated by `PrepareForThreads`: one
float buffer per thread of `kMaxPixelsPerCall * num_channels_` floats, and,
for non-float output, one uint16 buffer per thread of the same element
count. -/
structure PreparedState (H : Type) where
  handle : H
  tempf_sizes : List ℕ
  tempu_sizes : List ℕ

/-- Models `WriteToPixelCallbackStage::PrepareForThreads`: call
`pixel_callback_.Init(num_threads, kMaxPixelsPerCall)`; a null handle is an
error (`JXL_RETURN_IF_ERROR(run_opaque_ != nullptr)`); otherwise allocate
the per-thread scratch and succeed. -/
def prepareForThreads {H : Type} (cb : PixelCallbackM H) (cfg : CBCfg)
    (num_threads : ℕ) : Except Unit (PreparedState H) :=
  match cb.init num_threads kMaxPixelsPerCall with
  | none => Except.error ()
  | some h =>
      Except.ok
        { handle := h
          tempf_sizes := List.replicate num_threads (kMaxPixelsPerCall * cfg.num_channels)
          tempu_sizes :=
            if cfg.data_type = JxlDataType.JXL_TYPE_FLOAT then []
            else List.replicate num_threads (kMaxPixelsPerCall * cfg.num_channels) }

/-- Modelled from the spec: the pipeline driver runs `PrepareForThreads`
once, strictly before any row processing, and a failure there aborts the
whole decode for that sink, surfaced to the caller without any retry. The
driver itself is outside the sources here. Given the per-row arguments
`(xextra, xsize, xpos, ypos)` of every row it would process, the decode
either fails during setup (delivering no callback invocation at all) or
performs all row processing. -/
def decodeWithCallbackSink {H : Type} (cb : PixelCallbackM H) (cfg : CBCfg)
    (num_threads : ℕ) (rows : ℕ → ℤ → ℚ)
    (rowArgs : List (ℕ × ℕ × ℕ × ℕ)) : Except Unit (List CallbackCall) :=
  match prepareForThreads cb cfg num_threads with
  | Except.error e => Except.error e
  | Except.ok _ =>
      Except.ok (rowArgs.flatMap (fun r =>
        processRowCB cfg rows r.1 r.2.1 r.2.2.1 r.2.2.2))

/-! Part 4: `WriteToImageBundleStage` and `WriteToImage3FStage`. -/

/-- Models one `memcpy` of `len` samples into a row at offset `off`. -/
def memcpyRow (dst : ℕ → ℚ) (off : ℕ) (src : ℕ → ℚ) (len : ℕ) : ℕ → ℚ :=
  fun x => if off ≤ x ∧ x < off + len then src (x - off) else dst x

/-- The in-memory frame target of `WriteToImageBundleStage`: three color
planes and `numEC` extra-channel planes, each a `(channel, y, x)`-indexed
sample function. -/
structure ImageBundleM where
  color : ℕ → ℕ → ℕ → ℚ
  numEC : ℕ
  ec : ℕ → ℕ → ℕ → ℚ

/-- Models `WriteToImageBundleStage::ProcessRow`: for each color channel
`c < 3`, copy `xsize + 2 * xextra` samples from the input row starting at
offset `-xextra` to the plane row `ypos` at offset `xpos - xextra`; then
the same for every extra channel `ec`, whose input is channel `3 + ec`.
`rows` maps a channel index to its row, indexed relative to `xpos`. -/
def writeToImageBundleProcessRow (ib : ImageBundleM) (rows : ℕ → ℤ → ℚ)
    (xextra xsize xpos ypos : ℕ) : ImageBundleM :=
  { color := fun c y x =>
      if c < 3 ∧ y = ypos then
        memcpyRow (ib.color c y) (xpos - xextra)
          (fun k => rows c ((k : ℤ) - xextra)) (xsize + 2 * xextra) x
      else ib.color c y x
    numEC := ib.numEC
    ec := fun e y x =>
      if e < ib.numEC ∧ y = ypos then
        memcpyRow (ib.ec e y) (xpos - xextra)
          (fun k => rows (3 + e) ((k : ℤ) - xextra)) (xsize + 2 * xextra) x
      else ib.ec e y x }

/-- Models `WriteToImage3FStage::ProcessRow`: the same row copy for the
three color planes only. -/
def writeToImage3FProcessRow (img : ℕ → ℕ → ℕ → ℚ) (rows : ℕ → ℤ → ℚ)
    (xextra xsize xpos ypos : ℕ) : ℕ → ℕ → ℕ → ℚ :=
  fun c y x =>
    if c < 3 ∧ y = ypos then
      memcpyRow (img c y) (xpos - xextra)
        (fun k => rows c ((k : ℤ) - xextra)) (xsize + 2 * xextra) x
    else img c y x

/-! Part 5: derived observations and claim-specific instances. -/

/-- The x positions covered by a list of callback invocations: each call
covers `pixel_count` consecutive positions starting at its `x` argument. -/
def coveredXs (calls : List CallbackCall) : List ℕ :=
  calls.flatMap (fun c => (List.range c.pixel_count).map (c.x + ·))

/-- The samples of pixel `i` inside a flat chunk of per-channel-interleaved
output data with `nc` channels per pixel. -/
def pixelData (nc : ℕ) (l : List OutSample) (i : ℕ) : List OutSample :=
  (l.drop (i * nc)).take nc

/-- Follows the wording of the spec for the unpremultiply-ordering claim:
one delivered pixel is obtained by unpremultiplying the gathered (linear)
samples of that pixel by the alpha of that same pixel and only then
applying the numeric conversion. -/
def specPixel (cfg : CBCfg) (rows : ℕ → ℤ → ℚ) (t : ℤ) : List OutSample :=
  (unpremulPixel cfg.num_color (gatherPixel cfg rows t)).map
    (convertSample cfg.data_type cfg.swap_endianness)

/-- Follows the wording of the spec for the unpremultiply-ordering claim:
the chunk output is assembled from fully converted pixels, with the
horizontal flip acting afterwards as a reversal of whole delivered pixels
(and the same `xstart` remap as the stage). -/
def processChunkSpec (cfg : CBCfg) (rows : ℕ → ℤ → ℚ) (xpos yout : ℕ)
    (limit x0 : ℤ) : List CallbackCall :=
  let xlen := chunkLen limit x0
  let ordered := (List.range xlen).map
    (fun ix : ℕ => specPixel cfg rows (x0 + (ix : ℤ)))
  let ordered2 := if cfg.flip_x then ordered.reverse else ordered
  let xstart := chunkXStart cfg xpos limit x0
  if cfg.transpose then
    (List.range xlen).map (fun i =>
      { x := yout, y := xstart + i, pixel_count := 1, data := ordered2.getD i [] })
  else
    [{ x := xstart, y := yout, pixel_count := xlen, data := ordered2.flatten }]

/-- The row-level wrapper of `processChunkSpec`, mirroring `processRowCB`. -/
def processRowCBSpec (cfg : CBCfg) (rows : ℕ → ℤ → ℚ)
    (xextra xsize xpos ypos : ℕ) : List CallbackCall :=
  if cfg.height ≤ ypos then [] else
  let yout := if cfg.flip_y then cfg.height - 1 - ypos else ypos
  let limit := chunkLimit cfg.width xextra xsize xpos
  (chunkStarts xextra limit).flatMap (processChunkSpec cfg rows xpos yout limit)

/-- Sink configuration of the C1 counterexample: an RGB output
(`num_channels = 3`, so `want_alpha_` is false) from a source that has an
alpha plane, with unpremultiplication requested. -/
def c1Cfg : CBCfg :=
  { width := 1, height := 1, num_channels := 3, has_alpha := true,
    unpremul_alpha := true, alpha_c := 3, swap_endianness := false,
    undo_orientation := Orientation.kIdentity,
    data_type := JxlDataType.JXL_TYPE_FLOAT }

/-- Input rows of the C1 counterexample: all three color samples are 1,
the alpha sample is 1/2. -/
def c1Rows : ℕ → ℤ → ℚ := fun c _ => if c = 3 then 1 / 2 else 1

/-- Sink configuration of the C2 scenario: RGBA uint8 output, stride 8,
height 2. -/
def c2Cfg : U8Cfg :=
  { stride := 8, height := 2, rgba := true, has_alpha := true, alpha_c := 3 }

/-- Row 0 of the C2 scenario: red samples 0 and 1/2, other samples 1. -/
def c2Rows0 : ℕ → ℕ → ℚ := fun c x => if c = 0 then (if x = 0 then 0 else 1 / 2) else 1

/-- Row 1 of the C2 scenario: red samples 1 and 1/4, other samples 1. -/
def c2Rows1 : ℕ → ℕ → ℚ := fun c x => if c = 0 then (if x = 0 then 1 else 1 / 4) else 1

/-- The byte buffer after the two `ProcessRow` calls of the C2 scenario. -/
def c2Buf : ℕ → ℕ :=
  applyWrites
    (writeToU8ProcessRow c2Cfg c2Rows0 0 2 0 0 ++
     writeToU8ProcessRow c2Cfg c2Rows1 0 2 0 1)
    (fun _ => 0)

/-- RawBufferSink configuration of the C3 scenario: height 4. -/
def c3U8Cfg : U8Cfg :=
  { stride := 8, height := 4, rgba := true, has_alpha := false, alpha_c := 3 }

/-- PixelCallbackSink configuration of the C3 scenario: height 4. -/
def c3CBCfg : CBCfg :=
  { width := 1, height := 4, num_channels := 1, has_alpha := false,
    unpremul_alpha := false, alpha_c := 0, swap_endianness := false,
    undo_orientation := Orientation.kIdentity,
    data_type := JxlDataType.JXL_TYPE_FLOAT }

/-- Constant-zero input rows used by the C3 scenario. -/
def c3Rows : ℕ → ℕ → ℚ := fun _ _ => 0

/-- Constant-zero input rows (callback-sink indexing) for C3 and C10. -/
def c3RowsZ : ℕ → ℤ → ℚ := fun _ _ => 0

/-- Constant-zero input rows of the C10 counterexample. -/
def c10Rows : ℕ → ℤ → ℚ := fun _ _ => 0

/-- Sink configuration of the C1 amended-claim witness: RGBA float output
with alpha present and unpremultiplication requested. -/
def c1wCfg : CBCfg :=
  { width := 2, height := 1, num_channels := 4, has_alpha := true,
    unpremul_alpha := true, alpha_c := 3, swap_endianness := false,
    undo_orientation := Orientation.kIdentity,
    data_type := JxlDataType.JXL_TYPE_FLOAT }

/-- Input rows of the C1 amended-claim witness. -/
def c1wRows : ℕ → ℤ → ℚ := fun c _ => if c = 3 then 1 / 2 else 1

/-- Sink configuration of the C4 witness: grayscale+alpha float output
with `undo_orientation = kTranspose`. -/
def c4Cfg : CBCfg :=
  { width := 3, height := 2, num_channels := 2, has_alpha := true,
    unpremul_alpha := false, alpha_c := 3, swap_endianness := false,
    undo_orientation := Orientation.kTranspose,
    data_type := JxlDataType.JXL_TYPE_FLOAT }

/-- Constant-zero input rows of the C4 witness. -/
def c4Rows : ℕ → ℤ → ℚ := fun _ _ => 0

/-- Sink configuration of the C5 witness: RGBA output with
`has_alpha = false`. -/
def c5Cfg : U8Cfg :=
  { stride := 8, height := 2, rgba := true, has_alpha := false, alpha_c := 3 }

/-- Input rows of the C5 witness, with a poisoned alpha plane (value 7). -/
def c5Rows : ℕ → ℕ → ℚ := fun c _ => if c = 3 then 7 else 0

/-- Input rows of the C5 witness with a differently poisoned alpha plane
(value 9), agreeing with `c5Rows` on the color channels. -/
def c5Rows2 : ℕ → ℕ → ℚ := fun c _ => if c = 3 then 9 else 0

/-- Sink configuration of the C10 counterexample: identity orientation,
grayscale float output, width 10. -/
def c10Cfg : CBCfg :=
  { width := 10, height := 1, num_channels := 1, has_alpha := false,
    unpremul_alpha := false, alpha_c := 0, swap_endianness := false,
    undo_orientation := Orientation.kIdentity,
    data_type := JxlDataType.JXL_TYPE_FLOAT }

/-! Helper lemmas. -/

theorem flipPixels_eq_reverse (l : List (List ℚ)) : flipPixels l = l.reverse := by
  apply List.ext_getElem
  · simp [flipPixels]
  · intro i h1 h2
    simp only [flipPixels, List.length_map, List.length_range] at h1
    simp only [flipPixels, List.getElem_map, List.getElem_range, List.getElem_reverse]
    rw [List.getD_eq_getElem _ _ (by omega)]

theorem rne_lb {q : ℚ} (h : 0 ≤ q) : 0 ≤ rne q := by
  have hf : (0 : ℤ) ≤ ⌊q⌋ := Int.floor_nonneg.mpr h
  unfold rne
  split_ifs <;> omega

theorem rne_ub {q : ℚ} {B : ℤ} (h : q ≤ B) : rne q ≤ B := by
  have h1 : ⌊q⌋ ≤ B := by
    have := Int.floor_le_floor h
    rwa [Int.floor_intCast] at this
  have hfl : (⌊q⌋ : ℚ) ≤ q := Int.floor_le q
  unfold rne
  split_ifs with h2 h3 h4
  · exact h1
  · have hlt : (⌊q⌋ : ℚ) < q := by linarith
    have : (⌊q⌋ : ℚ) < (B : ℚ) := lt_of_lt_of_le hlt h
    have : ⌊q⌋ < B := by exact_mod_cast this
    omega
  · exact h1
  · have hlt : (⌊q⌋ : ℚ) < q := by linarith
    have : (⌊q⌋ : ℚ) < (B : ℚ) := lt_of_lt_of_le hlt h
    have : ⌊q⌋ < B := by exact_mod_cast this
    omega

theorem clamp01_nonneg (v : ℚ) : 0 ≤ clamp01 v := by
  unfold clamp01
  have h1 : (0 : ℚ) ≤ max v 0 := le_max_right v 0
  exact le_min h1 zero_le_one

theorem clamp01_le_one (v : ℚ) : clamp01 v ≤ 1 := min_le_right _ 1

theorem u8Sample_zero : u8Sample 0 = 0 := by
  unfold u8Sample clamp01 u8FromU32 rne
  norm_num [Int.fract]

theorem u8Sample_half : u8Sample (1 / 2) = 128 := by
  unfold u8Sample clamp01 u8FromU32 rne
  norm_num [Int.fract]
  omega

theorem u8Sample_one : u8Sample 1 = 255 := by
  unfold u8Sample clamp01 u8FromU32 rne
  norm_num [Int.fract]
  omega

theorem u8Sample_quarter : u8Sample (1 / 4) = 64 := by
  unfold u8Sample clamp01 u8FromU32 rne
  norm_num [Int.fract]
  omega

/-! Claim theorems. -/

/-- C2: RawBufferSink converts each sample by clamp to the unit interval,
scale by 255, round to nearest and narrow to 8 bits (the narrowing loses
nothing after the clamp), and on the 2x2 RGBA scenario with red samples
0, 1/2, 1, 1/4 and alpha 1 it writes red bytes 0, 128, 255, 64 and alpha
bytes 255 at the four pixel positions. -/
theorem c2_u8_concrete_scenario :
    (∀ v : ℚ, (u8Sample v : ℤ) = rne (clamp01 v * 255)) ∧
    c2Buf 0 = 0 ∧ c2Buf 4 = 128 ∧ c2Buf 8 = 255 ∧ c2Buf 12 = 64 ∧
    c2Buf 3 = 255 ∧ c2Buf 7 = 255 ∧ c2Buf 11 = 255 ∧ c2Buf 15 = 255 := by
  constructor
  · intro v
    have h0 : 0 ≤ rne (clamp01 v * 255) := by
      apply rne_lb
      have := clamp01_nonneg v
      linarith
    have h255 : rne (clamp01 v * 255) ≤ 255 := by
      apply rne_ub
      have := clamp01_le_one v
      push_cast
      linarith
    unfold u8Sample u8FromU32
    omega
  · have hw0 : writeToU8ProcessRow c2Cfg c2Rows0 0 2 0 0 =
        [(0, 0), (1, 255), (2, 255), (3, 255),
         (4, 128), (5, 255), (6, 255), (7, 255)] := by
      simp only [writeToU8ProcessRow, c2Cfg, c2Rows0, U8Cfg.bytes]
      norm_num [List.range_succ, u8Sample_zero, u8Sample_half, u8Sample_one]
    have hw1 : writeToU8ProcessRow c2Cfg c2Rows1 0 2 0 1 =
        [(8, 255), (9, 255), (10, 255), (11, 255),
         (12, 64), (13, 255), (14, 255), (15, 255)] := by
      simp only [writeToU8ProcessRow, c2Cfg, c2Rows1, U8Cfg.bytes]
      norm_num [List.range_succ, u8Sample_one, u8Sample_quarter]
    unfold c2Buf
    rw [hw0, hw1]
    norm_num [applyWrites, List.foldl]

/-- C3: rows with `ypos >= height` produce no buffer write and no callback
invocation for either sink, and with height 4 the rows 0..7 produce output
exactly for ypos 0..3 (shown on a concrete one-pixel row: 4 byte writes
per in-range row for the RGBA buffer sink, 1 callback invocation per
in-range row for the callback sink, nothing for rows 4..7). -/
theorem c3_border_skip :
    (∀ (cfg : U8Cfg) (cfg2 : CBCfg) (rows : ℕ → ℕ → ℚ) (rows2 : ℕ → ℤ → ℚ)
       (xe xs xp yp : ℕ), cfg.height ≤ yp → cfg2.height ≤ yp →
       writeToU8ProcessRow cfg rows xe xs xp yp = [] ∧
       processRowCB cfg2 rows2 xe xs xp yp = []) ∧
    (List.range 8).map (fun yp => (writeToU8ProcessRow c3U8Cfg c3Rows 0 1 0 yp).length)
      = [4, 4, 4, 4, 0, 0, 0, 0] ∧
    (List.range 8).map (fun yp => (processRowCB c3CBCfg c3RowsZ 0 1 0 yp).length)
      = [1, 1, 1, 1, 0, 0, 0, 0] := by
  refine ⟨fun cfg cfg2 rows rows2 xe xs xp yp h1 h2 => ⟨?_, ?_⟩, ?_, ?_⟩
  · simp [writeToU8ProcessRow, h1]
  · simp [processRowCB, h2]
  · decide
  · decide

/-- Witness for C3 at a concrete out-of-range row (height 4, ypos 5). -/
theorem c3_border_skip_witness :
    writeToU8ProcessRow c3U8Cfg c3Rows 0 1 0 5 = [] ∧
    processRowCB c3CBCfg c3RowsZ 0 1 0 5 = [] :=
  c3_border_skip.1 c3U8Cfg c3CBCfg c3Rows c3RowsZ 0 1 0 5
    (by norm_num [c3U8Cfg]) (by norm_num [c3CBCfg])

/-- C6: an `Init` returning a null handle makes `PrepareForThreads` fail,
and the decode (which runs setup strictly before any row) surfaces that
failure without processing any row. -/
theorem c6_init_failure {H : Type} (cb : PixelCallbackM H) (cfg : CBCfg)
    (nt : ℕ) (rows : ℕ → ℤ → ℚ) (rowArgs : List (ℕ × ℕ × ℕ × ℕ))
    (h : cb.init nt kMaxPixelsPerCall = none) :
    prepareForThreads cb cfg nt = Except.error () ∧
    decodeWithCallbackSink cb cfg nt rows rowArgs = Except.error () := by
  have h1 : prepareForThreads cb cfg nt = Except.error () := by
    unfold prepareForThreads
    rw [h]
  refine ⟨h1, ?_⟩
  unfold decodeWithCallbackSink
  rw [h1]

/-- Witness for C6 at a concrete always-failing callback object. -/
theorem c6_init_failure_witness :
    prepareForThreads (H := Unit) ⟨fun _ _ => none⟩
      ⟨1, 1, 1, false, false, 0, false, Orientation.kIdentity,
       JxlDataType.JXL_TYPE_FLOAT⟩ 1 = Except.error () ∧
    decodeWithCallbackSink (H := Unit) ⟨fun _ _ => none⟩
      ⟨1, 1, 1, false, false, 0, false, Orientation.kIdentity,
       JxlDataType.JXL_TYPE_FLOAT⟩ 1 (fun _ _ => 0) [(0, 1, 0, 0)]
      = Except.error () :=
  c6_init_failure ⟨fun _ _ => none⟩ _ 1 (fun _ _ => 0) [(0, 1, 0, 0)] rfl

/-- C7: with unpremultiplication requested and a pixel whose alpha is
exactly 0, the clamped division never produces the NaN/Inf marker (for any
sample and any alpha the divisor is positive), and the color channels of
such a pixel come out as the finite rationals `color * 1000000`. -/
theorem c7_unpremul_alpha_zero (pix : List ℚ) (nc c : ℕ) (hc : c < nc)
    (hlen : c < pix.length) (h0 : pix.getD nc 0 = 0) :
    (∀ (x a : ℚ), (clampedDiv x a).isSome = true) ∧
    (unpremulPixel nc pix).getD c 0 = pix.getD c 0 * 1000000 := by
  have hpos : ∀ a : ℚ, 0 < max kSmallAlpha a := by
    intro a
    have : (0 : ℚ) < kSmallAlpha := by norm_num [kSmallAlpha]
    exact lt_max_of_lt_left this
  constructor
  · intro x a
    unfold clampedDiv
    rw [if_neg (ne_of_gt (hpos a))]
    rfl
  · unfold unpremulPixel
    rw [List.getD_eq_getElem _ _ (by simpa using hlen)]
    simp only [List.getElem_map, List.getElem_range]
    rw [if_pos hc, h0]
    unfold clampedDiv
    rw [if_neg (ne_of_gt (hpos 0))]
    have hmax : max kSmallAlpha 0 = kSmallAlpha := max_eq_left (by norm_num [kSmallAlpha])
    rw [hmax]
    unfold kSmallAlpha
    rw [div_eq_mul_inv]
    norm_num

/-- Witness for C7 at the concrete pixel (color 3, alpha 0). -/
theorem c7_unpremul_alpha_zero_witness :
    (∀ (x a : ℚ), (clampedDiv x a).isSome = true) ∧
    (unpremulPixel 1 [3, 0]).getD 0 0 = ([3, (0 : ℚ)].getD 0 0) * 1000000 :=
  c7_unpremul_alpha_zero [3, 0] 1 0 (by norm_num) (by norm_num) (by norm_num)

/-- C8: the horizontal-flip transformation of PixelCallbackSink — reverse
the pixel order of a chunk and remap `xstart` to `width - xstart - xlen`
(in size_t arithmetic) — is an involution: applied twice it restores the
original pixel order and the original `xstart`. -/
theorem c8_flip_involution (l : List (List ℚ)) (width xstart xlen : ℕ)
    (h : xstart < 2 ^ 64) :
    flipPixels (flipPixels l) = l ∧
    flipXStart width (flipXStart width xstart xlen) xlen = xstart := by
  constructor
  · rw [flipPixels_eq_reverse, flipPixels_eq_reverse, List.reverse_reverse]
  · unfold flipXStart sizeT
    omega

/-- Witness for C8 on a 3-pixel chunk of distinct markers. -/
theorem c8_flip_involution_witness :
    flipPixels (flipPixels [[1], [2], [3]]) = [[1], [2], [3]] ∧
    flipXStart 10 (flipXStart 10 2 3) 3 = 2 :=
  c8_flip_involution [[1], [2], [3]] 10 2 3 (by norm_num)

/-- C9: both FrameBufferSink and PlanarBufferSink copy, for each channel,
exactly `xsize + 2 * xextra` samples starting at target offset
`xpos - xextra`, each target sample equal (as an exact rational, i.e. with
no clamping, scaling, rounding, orientation or alpha handling) to the
input sample at the same position including the borders; rows other than
`ypos` are untouched. -/
theorem c9_copy_exact (ib : ImageBundleM) (img : ℕ → ℕ → ℕ → ℚ)
    (rows : ℕ → ℤ → ℚ) (xe xs xp yp c k : ℕ) (hc : c < 3)
    (hk : k < xs + 2 * xe) :
    (writeToImageBundleProcessRow ib rows xe xs xp yp).color c yp ((xp - xe) + k)
      = rows c ((k : ℤ) - xe) ∧
    (∀ e, e < ib.numEC →
      (writeToImageBundleProcessRow ib rows xe xs xp yp).ec e yp ((xp - xe) + k)
        = rows (3 + e) ((k : ℤ) - xe)) ∧
    writeToImage3FProcessRow img rows xe xs xp yp c yp ((xp - xe) + k)
      = rows c ((k : ℤ) - xe) ∧
    (∀ c2 y x, y ≠ yp →
      (writeToImageBundleProcessRow ib rows xe xs xp yp).color c2 y x = ib.color c2 y x ∧
      (writeToImageBundleProcessRow ib rows xe xs xp yp).ec c2 y x = ib.ec c2 y x ∧
      writeToImage3FProcessRow img rows xe xs xp yp c2 y x = img c2 y x) := by
  have hcan : (xp - xe) + k - (xp - xe) = k := by omega
  refine ⟨?_, fun e he => ?_, ?_, fun c2 y x hy => ⟨?_, ?_, ?_⟩⟩
  · simp only [writeToImageBundleProcessRow]
    rw [if_pos ⟨hc, trivial⟩]
    unfold memcpyRow
    rw [if_pos (by omega), hcan]
  · simp only [writeToImageBundleProcessRow]
    rw [if_pos ⟨he, trivial⟩]
    unfold memcpyRow
    rw [if_pos (by omega), hcan]
  · simp only [writeToImage3FProcessRow]
    rw [if_pos ⟨hc, trivial⟩]
    unfold memcpyRow
    rw [if_pos (by omega), hcan]
  · simp only [writeToImageBundleProcessRow]
    rw [if_neg (by tauto)]
  · simp only [writeToImageBundleProcessRow]
    rw [if_neg (by tauto)]
  · simp only [writeToImage3FProcessRow]
    rw [if_neg (by tauto)]

/-- Witness for C9 at a concrete one-extra-channel bundle and a border
sample: the copied sample at target x = 0 is the border input sample at
offset -1. -/
theorem c9_copy_exact_witness :
    (writeToImageBundleProcessRow ⟨fun _ _ _ => 0, 1, fun _ _ _ => 0⟩
        (fun _ t => (t : ℚ)) 1 2 1 0).color 0 0 0 = -1 := by
  have h := (c9_copy_exact ⟨fun _ _ _ => 0, 1, fun _ _ _ => 0⟩ (fun _ _ _ => 0)
    (fun _ t => (t : ℚ)) 1 2 1 0 0 0 (by norm_num) (by norm_num)).1
  norm_num at h
  exact h

theorem processChunk_eq_spec (cfg : CBCfg) (rows : ℕ → ℤ → ℚ)
    (xpos yout : ℕ) (limit x0 : ℤ) (ha : cfg.has_alpha = true)
    (hu : cfg.unpremul_alpha = true) (hw : cfg.want_alpha = true) :
    processChunk cfg rows xpos yout limit x0 =
      processChunkSpec cfg rows xpos yout limit x0 := by
  unfold processChunk processChunkSpec chunkConverted chunkPixels specPixel
  rw [ha, hu, hw]
  simp only [Bool.true_and, Bool.and_true, if_true]
  cases hfx : cfg.flip_x
  · simp only [Bool.false_eq_true, if_false, List.map_map]
    rfl
  · rw [flipPixels_eq_reverse]
    simp only [if_true, List.map_reverse, List.map_map]
    rfl

/-- C1 (amended): when the source has an alpha plane, unpremultiplication is
requested and the output format carries alpha (num_channels 2 or 4, i.e.
`want_alpha_`), every ProcessRow invocation delivers exactly what the
per-pixel pipeline "unpremultiply the gathered samples by the alpha of the
same pixel, then narrow, with reordering acting on whole delivered pixels"
produces — so the clamped division happens before the horizontal-flip
reordering and before any numeric narrowing, for every data type, every
orientation and every chunk geometry. For num_channels 1 or 3 the stage
performs no unpremultiplication at all (see the counterexample). -/
theorem c1_unpremul_order_amended (cfg : CBCfg) (rows : ℕ → ℤ → ℚ)
    (xe xs xp yp : ℕ) (ha : cfg.has_alpha = true)
    (hu : cfg.unpremul_alpha = true) (hw : cfg.want_alpha = true) :
    processRowCB cfg rows xe xs xp yp = processRowCBSpec cfg rows xe xs xp yp := by
  unfold processRowCB processRowCBSpec
  by_cases hyp : cfg.height ≤ yp
  · rw [if_pos hyp, if_pos hyp]
  · rw [if_neg hyp, if_neg hyp]
    apply List.flatMap_congr
    intro x0 _
    exact processChunk_eq_spec cfg rows xp _ _ x0 ha hu hw

/-- Witness for the amended C1 at a concrete RGBA float configuration. -/
theorem c1_unpremul_order_amended_witness :
    c1wCfg.has_alpha = true ∧ c1wCfg.unpremul_alpha = true ∧
    c1wCfg.want_alpha = true ∧
    processRowCB c1wCfg c1wRows 0 2 0 0 = processRowCBSpec c1wCfg c1wRows 0 2 0 0 :=
  ⟨rfl, rfl, rfl, c1_unpremul_order_amended c1wCfg c1wRows 0 2 0 0 rfl rfl rfl⟩

/-- Counterexample to C1 as stated: with `num_channels = 3` (RGB output, no
alpha channel wanted), `has_alpha = true` and `unpremul_alpha = true`, the
stage delivers the raw color sample 1 unchanged, although the claimed
clamped division of color 1 by the alpha 1/2 of that pixel would give 2. -/
theorem c1_unpremul_order_counterexample :
    processRowCB c1Cfg c1Rows 0 1 0 0 =
      [{ x := 0, y := 0, pixel_count := 1,
         data := [OutSample.f32 1, OutSample.f32 1, OutSample.f32 1] }] ∧
    (clampedDiv 1 (c1Rows 3 0)).getD 0 = 2 ∧
    OutSample.f32 1 ≠ OutSample.f32 2 := by
  refine ⟨by decide, ?_, by decide⟩
  have hr : c1Rows 3 0 = 1 / 2 := rfl
  rw [hr]
  have hmax : max kSmallAlpha (1 / 2 : ℚ) = 1 / 2 := by
    apply max_eq_right
    norm_num [kSmallAlpha]
  unfold clampedDiv
  rw [hmax, if_neg (by norm_num)]
  norm_num

theorem gatherPixel_length (cfg : CBCfg) (rows : ℕ → ℤ → ℚ) (t : ℤ) :
    (gatherPixel cfg rows t).length = cfg.num_channels := by
  simp [gatherPixel]

theorem unpremulPixel_length (nc : ℕ) (p : List ℚ) :
    (unpremulPixel nc p).length = p.length := by
  simp [unpremulPixel]

theorem flatten_pixelData (nc : ℕ) (L : List (List OutSample))
    (hlen : ∀ p ∈ L, p.length = nc) (i : ℕ) (hi : i < L.length) :
    pixelData nc L.flatten i = L.getD i [] := by
  induction L generalizing i with
  | nil => simp at hi
  | cons p t ih =>
      cases i with
      | zero =>
          unfold pixelData
          simp only [List.flatten_cons, Nat.zero_mul, List.drop_zero, List.getD_cons_zero]
          rw [← hlen p (List.mem_cons_self p t)]
          exact List.take_left p t.flatten
      | succ j =>
          unfold pixelData
          simp only [List.flatten_cons, List.getD_cons_succ]
          have h1 : (j + 1) * nc = p.length + j * nc := by
            rw [hlen p (List.mem_cons_self p t)]
            ring
          rw [h1, List.drop_append (j * nc)]
          have h2 := ih (fun q hq => hlen q (List.mem_cons_of_mem p hq)) j
            (by simpa using hi)
          unfold pixelData at h2
          exact h2

theorem chunkConverted_update (cfg : CBCfg) (o2 : Orientation)
    (rows : ℕ → ℤ → ℚ) (limit x0 : ℤ)
    (hfx : shouldFlipX o2 = shouldFlipX cfg.undo_orientation) :
    chunkConverted { cfg with undo_orientation := o2 } rows limit x0
      = chunkConverted cfg rows limit x0 := by
  unfold chunkConverted chunkPixels gatherPixel lineSample
  simp only [CBCfg.num_color, CBCfg.want_alpha, CBCfg.flip_x, hfx]

theorem chunkXStart_update (cfg : CBCfg) (o2 : Orientation) (xpos : ℕ)
    (limit x0 : ℤ)
    (hfx : shouldFlipX o2 = shouldFlipX cfg.undo_orientation) :
    chunkXStart { cfg with undo_orientation := o2 } xpos limit x0
      = chunkXStart cfg xpos limit x0 := by
  unfold chunkXStart
  simp only [CBCfg.flip_x, hfx]

theorem chunkConverted_length (cfg : CBCfg) (rows : ℕ → ℤ → ℚ)
    (limit x0 : ℤ) :
    (chunkConverted cfg rows limit x0).length = chunkLen limit x0 := by
  unfold chunkConverted chunkPixels
  split_ifs <;> simp [flipPixels]

theorem chunkConverted_mem_length (cfg : CBCfg) (rows : ℕ → ℤ → ℚ)
    (limit x0 : ℤ) :
    ∀ p ∈ chunkConverted cfg rows limit x0, p.length = cfg.num_channels := by
  intro p hp
  unfold chunkConverted at hp
  rw [List.mem_map] at hp
  obtain ⟨q, hq, rfl⟩ := hp
  rw [List.length_map]
  have hq2 : q ∈ (if (cfg.has_alpha && cfg.want_alpha && cfg.unpremul_alpha) = true
      then (chunkPixels cfg rows limit x0).map (unpremulPixel cfg.num_color)
      else chunkPixels cfg rows limit x0) := by
    by_cases hflip : cfg.flip_x = true
    · rw [if_pos hflip, flipPixels_eq_reverse, List.mem_reverse] at hq
      exact hq
    · rw [if_neg hflip] at hq
      exact hq
  by_cases hup : (cfg.has_alpha && cfg.want_alpha && cfg.unpremul_alpha) = true
  · rw [if_pos hup, List.mem_map] at hq2
    obtain ⟨r, hr, rfl⟩ := hq2
    unfold chunkPixels at hr
    rw [List.mem_map] at hr
    obtain ⟨ix, _, rfl⟩ := hr
    rw [unpremulPixel_length, gatherPixel_length]
  · rw [if_neg hup] at hq2
    unfold chunkPixels at hq2
    rw [List.mem_map] at hq2
    obtain ⟨ix, _, rfl⟩ := hq2
    rw [gatherPixel_length]

theorem map_eq_flatMap_single (C : List (List OutSample)) (X Y n nc : ℕ)
    (hC : ∀ p ∈ C, p.length = nc) (hlen : C.length = n) :
    (List.range n).map (fun i =>
      CallbackCall.mk Y (X + i) 1 (C.getD i [])) =
    [CallbackCall.mk X Y n C.flatten].flatMap (fun call =>
      (List.range call.pixel_count).map (fun i =>
        CallbackCall.mk call.y (call.x + i) 1 (pixelData nc call.data i))) := by
  simp only [List.flatMap_cons, List.flatMap_nil, List.append_nil]
  apply List.map_congr_left
  intro i hi
  rw [List.mem_range] at hi
  congr 1
  rw [flatten_pixelData nc C hC i (by omega)]

theorem processChunk_transpose_eq (cfg : CBCfg) (o2 : Orientation)
    (rows : ℕ → ℤ → ℚ) (xpos yout : ℕ) (limit x0 : ℤ)
    (hfx : shouldFlipX o2 = shouldFlipX cfg.undo_orientation)
    (ht : cfg.transpose = true) (ht2 : shouldTranspose o2 = false) :
    processChunk cfg rows xpos yout limit x0 =
      (processChunk { cfg with undo_orientation := o2 } rows xpos yout limit x0).flatMap
        (fun call => (List.range call.pixel_count).map (fun i =>
          { x := call.y, y := call.x + i, pixel_count := 1,
            data := pixelData cfg.num_channels call.data i })) := by
  have ht2m : CBCfg.transpose { cfg with undo_orientation := o2 } = false := by
    simp [CBCfg.transpose, ht2]
  unfold processChunk
  rw [ht, ht2m]
  simp only [if_true, Bool.false_eq_true, if_false]
  rw [chunkConverted_update cfg o2 rows limit x0 hfx,
    chunkXStart_update cfg o2 xpos limit x0 hfx]
  exact map_eq_flatMap_single (chunkConverted cfg rows limit x0)
    (chunkXStart cfg xpos limit x0) yout (chunkLen limit x0) cfg.num_channels
    (chunkConverted_mem_length cfg rows limit x0)
    (chunkConverted_length cfg rows limit x0)

theorem chunk_decomp {α : Type} (f : ℤ → α) :
    ∀ (K : ℕ) (s limit : ℤ),
      ((limit - s).toNat + (kMaxPixelsPerCall - 1)) / kMaxPixelsPerCall = K →
      ((List.range K).map (fun k : ℕ => s + (kMaxPixelsPerCall : ℤ) * k)).flatMap
        (fun x0 => (List.range (chunkLen limit x0)).map (fun ix : ℕ => f (x0 + (ix : ℤ))))
      = (List.range (limit - s).toNat).map (fun i : ℕ => f (s + (i : ℤ))) := by
  intro K
  induction K with
  | zero =>
      intro s limit h
      have h0 : (limit - s).toNat = 0 := by
        unfold kMaxPixelsPerCall at h
        omega
      simp [h0]
  | succ K ih =>
      intro s limit h
      unfold kMaxPixelsPerCall at h
      rw [List.range_succ_eq_map]
      simp only [List.map_cons, List.flatMap_cons, Nat.cast_zero, mul_zero, add_zero]
      by_cases hsmall : (limit - s).toNat ≤ 1024
      · have hK : K = 0 := by omega
        subst hK
        simp only [List.range_zero, List.map_nil, List.flatMap_nil, List.append_nil]
        have hcl : chunkLen limit s = (limit - s).toNat := by
          unfold chunkLen kMaxPixelsPerCall
          omega
        rw [hcl]
      · have hcl : chunkLen limit s = 1024 := by
          unfold chunkLen kMaxPixelsPerCall
          omega
        have hrec := ih (s + 1024) limit (by unfold kMaxPixelsPerCall; omega)
        have hmap : ((List.range K).map (fun k : ℕ => k + 1)).map
              (fun k : ℕ => s + (kMaxPixelsPerCall : ℤ) * k)
            = (List.range K).map (fun k : ℕ => (s + 1024) + (kMaxPixelsPerCall : ℤ) * k) := by
          rw [List.map_map]
          apply List.map_congr_left
          intro k _
          simp only [Function.comp_apply]
          unfold kMaxPixelsPerCall
          push_cast
          ring
        rw [hmap, hrec, hcl]
        have hsplit : (limit - s).toNat = 1024 + (limit - (s + 1024)).toNat := by
          omega
        rw [hsplit, List.range_add, List.map_append, List.map_map]
        congr 1
        apply List.map_congr_left
        intro i _
        simp only [Function.comp_apply]
        congr 1
        push_cast
        ring

theorem chunkStarts_flatMap {α : Type} (f : ℤ → α) (xe : ℕ) (limit : ℤ) :
    (chunkStarts xe limit).flatMap
      (fun x0 => (List.range (chunkLen limit x0)).map (fun ix : ℕ => f (x0 + (ix : ℤ))))
    = (List.range (limit + (xe : ℤ)).toNat).map (fun i : ℕ => f (-(xe : ℤ) + (i : ℤ))) := by
  unfold chunkStarts
  have h := chunk_decomp f
    (((limit + (xe : ℤ)).toNat + (kMaxPixelsPerCall - 1)) / kMaxPixelsPerCall)
    (-(xe : ℤ)) limit (by rw [sub_neg_eq_add])
  rw [sub_neg_eq_add] at h
  exact h

theorem chunkStarts_mem_bounds {xe : ℕ} {limit x0 : ℤ}
    (h : x0 ∈ chunkStarts xe limit) : -(xe : ℤ) ≤ x0 ∧ x0 < limit := by
  unfold chunkStarts at h
  rw [List.mem_map] at h
  obtain ⟨k, hk, rfl⟩ := h
  rw [List.mem_range] at hk
  unfold kMaxPixelsPerCall at hk ⊢
  constructor
  · omega
  · omega

/-- C4: under a transposing undo orientation the sink turns what would be
one batched callback invocation (per chunk of at most `kMaxPixelsPerCall`
pixels) into one single-pixel invocation per pixel, with the two
coordinate arguments swapped relative to the non-transposed case and with
the same delivered samples; every call under transpose has pixel_count 1,
and every batch of the non-transposed stage holds at most 1024 pixels. -/
theorem c4_transpose_single_pixel_calls (cfg : CBCfg) (o2 : Orientation)
    (rows : ℕ → ℤ → ℚ) (xe xs xp yp : ℕ)
    (hfx : shouldFlipX o2 = shouldFlipX cfg.undo_orientation)
    (hfy : shouldFlipY o2 = shouldFlipY cfg.undo_orientation)
    (ht : cfg.transpose = true) (ht2 : shouldTranspose o2 = false) :
    processRowCB cfg rows xe xs xp yp =
      (processRowCB { cfg with undo_orientation := o2 } rows xe xs xp yp).flatMap
        (fun call => (List.range call.pixel_count).map (fun i =>
          { x := call.y, y := call.x + i, pixel_count := 1,
            data := pixelData cfg.num_channels call.data i })) ∧
    (∀ call ∈ processRowCB cfg rows xe xs xp yp, call.pixel_count = 1) ∧
    (∀ call ∈ processRowCB { cfg with undo_orientation := o2 } rows xe xs xp yp,
       call.pixel_count ≤ kMaxPixelsPerCall) := by
  have hfy2 : CBCfg.flip_y { cfg with undo_orientation := o2 } = cfg.flip_y := by
    simp only [CBCfg.flip_y, hfy]
  have ht2m : CBCfg.transpose { cfg with undo_orientation := o2 } = false := by
    simp [CBCfg.transpose, ht2]
  refine ⟨?_, ?_, ?_⟩
  · unfold processRowCB
    by_cases hyp : cfg.height ≤ yp
    · rw [if_pos hyp, if_pos hyp]
      rfl
    · rw [if_neg hyp, if_neg hyp, hfy2]
      rw [List.flatMap_assoc]
      apply List.flatMap_congr
      intro x0 _
      exact processChunk_transpose_eq cfg o2 rows xp _ _ x0 hfx ht ht2
  · intro call hcall
    unfold processRowCB at hcall
    by_cases hyp : cfg.height ≤ yp
    · rw [if_pos hyp] at hcall
      simp at hcall
    · rw [if_neg hyp] at hcall
      rw [List.mem_flatMap] at hcall
      obtain ⟨x0, _, hc⟩ := hcall
      unfold processChunk at hc
      rw [ht] at hc
      simp only [if_true] at hc
      rw [List.mem_map] at hc
      obtain ⟨i, _, rfl⟩ := hc
      rfl
  · intro call hcall
    unfold processRowCB at hcall
    by_cases hyp : cfg.height ≤ yp
    · rw [if_pos hyp] at hcall
      simp at hcall
    · rw [if_neg hyp] at hcall
      rw [List.mem_flatMap] at hcall
      obtain ⟨x0, _, hc⟩ := hcall
      unfold processChunk at hc
      rw [ht2m] at hc
      simp only [Bool.false_eq_true, if_false, List.mem_singleton] at hc
      subst hc
      exact min_le_left _ _

/-- Witness for C4 at a concrete transposed configuration against its
identity-orientation counterpart. -/
theorem c4_transpose_single_pixel_calls_witness :
    processRowCB c4Cfg c4Rows 0 2 0 0 =
      (processRowCB { c4Cfg with undo_orientation := Orientation.kIdentity }
          c4Rows 0 2 0 0).flatMap
        (fun call => (List.range call.pixel_count).map (fun i =>
          { x := call.y, y := call.x + i, pixel_count := 1,
            data := pixelData c4Cfg.num_channels call.data i })) ∧
    (∀ call ∈ processRowCB c4Cfg c4Rows 0 2 0 0, call.pixel_count = 1) ∧
    (∀ call ∈ processRowCB { c4Cfg with undo_orientation := Orientation.kIdentity }
        c4Rows 0 2 0 0, call.pixel_count ≤ kMaxPixelsPerCall) :=
  c4_transpose_single_pixel_calls c4Cfg Orientation.kIdentity c4Rows 0 2 0 0
    rfl rfl rfl rfl

/-- C10 (amended): for every ProcessRow invocation of the callback sink
with `ypos < height` (shown for non-mirrored, non-transposed orientations,
where the callback x arguments are the source positions), the delivered
pixels cover exactly the x positions from `xpos - xextra` up to
`min(xpos + xsize + xextra, width) - 1`: the loop bound
`limit = min(xextra + xsize, width - xpos)` truncates a chunk that would
reach the configured width, so no pixel with `x >= width` is ever
delivered, even when `xpos + xsize` exceeds `width` — but the truncation
bound includes the right border `xextra`, not `min(xpos + xsize, width)`
as claimed (see the counterexample). -/
theorem c10_coverage_amended (cfg : CBCfg) (rows : ℕ → ℤ → ℚ) (xe xs xp yp : ℕ)
    (hy : yp < cfg.height) (hfx : cfg.flip_x = false) (htr : cfg.transpose = false)
    (hxe : xe ≤ xp) (hxp : xp ≤ cfg.width) (hwid : cfg.width < 2 ^ 64) :
    coveredXs (processRowCB cfg rows xe xs xp yp) =
      (List.range (chunkLimit cfg.width xe xs xp + (xe : ℤ)).toNat).map
        (fun i => xp - xe + i) ∧
    ∀ x ∈ coveredXs (processRowCB cfg rows xe xs xp yp), x < cfg.width := by
  have hlimle : chunkLimit cfg.width xe xs xp ≤ (cfg.width : ℤ) - xp :=
    min_le_right _ _
  have hmain : coveredXs (processRowCB cfg rows xe xs xp yp) =
      (List.range (chunkLimit cfg.width xe xs xp + (xe : ℤ)).toNat).map
        (fun i => xp - xe + i) := by
    unfold coveredXs processRowCB
    rw [if_neg (by omega)]
    rw [List.flatMap_assoc]
    have hchunk : ∀ x0 ∈ chunkStarts xe (chunkLimit cfg.width xe xs xp),
        (processChunk cfg rows xp (if cfg.flip_y = true then cfg.height - 1 - yp else yp)
            (chunkLimit cfg.width xe xs xp) x0).flatMap
          (fun c => (List.range c.pixel_count).map (c.x + ·))
        = (List.range (chunkLen (chunkLimit cfg.width xe xs xp) x0)).map
            (fun ix : ℕ => ((xp : ℤ) + (x0 + (ix : ℤ))).toNat) := by
      intro x0 hx0
      obtain ⟨hlb, hub⟩ := chunkStarts_mem_bounds hx0
      unfold processChunk
      rw [htr]
      simp only [Bool.false_eq_true, if_false, List.flatMap_cons, List.flatMap_nil,
        List.append_nil]
      unfold chunkXStart
      rw [hfx]
      simp only [Bool.false_eq_true, if_false]
      apply List.map_congr_left
      intro ix hix
      rw [List.mem_range] at hix
      unfold chunkLen kMaxPixelsPerCall at hix
      unfold sizeT
      omega
    rw [List.flatMap_congr hchunk]
    rw [chunkStarts_flatMap (fun t : ℤ => ((xp : ℤ) + t).toNat) xe
      (chunkLimit cfg.width xe xs xp)]
    apply List.map_congr_left
    intro i _
    omega
  refine ⟨hmain, ?_⟩
  intro x hx
  rw [hmain, List.mem_map] at hx
  obtain ⟨i, hi, rfl⟩ := hx
  rw [List.mem_range] at hi
  omega

/-- Witness for the amended C10 at a concrete bordered invocation
(width 10, xpos 1, xsize 2, xextra 1). -/
theorem c10_coverage_amended_witness :
    coveredXs (processRowCB c10Cfg c10Rows 1 2 1 0) =
      (List.range (chunkLimit c10Cfg.width 1 2 1 + ((1 : ℕ) : ℤ)).toNat).map
        (fun i => 1 - 1 + i) ∧
    ∀ x ∈ coveredXs (processRowCB c10Cfg c10Rows 1 2 1 0), x < c10Cfg.width :=
  c10_coverage_amended c10Cfg c10Rows 1 2 1 0 (by norm_num [c10Cfg])
    rfl rfl (by norm_num) (by norm_num [c10Cfg]) (by norm_num [c10Cfg])

/-- Counterexample to C10 as stated: with width 10, xpos 1, xsize 2 and
xextra 1 the invocation delivers the x positions 0..3, whereas the claimed
range `xpos - xextra .. min(xpos + xsize, width) - 1` is 0..2: the pixel
at x = 3 (inside the right border) is delivered but not covered by the
claim. -/
theorem c10_coverage_counterexample :
    coveredXs (processRowCB c10Cfg c10Rows 1 2 1 0) = [0, 1, 2, 3] ∧
    (1 : ℕ) - 1 = 0 ∧ min (1 + 2) c10Cfg.width - 1 = 2 ∧
    ([0, 1, 2, 3] : List ℕ) ≠ [0, 1, 2] := by
  refine ⟨by decide, rfl, by decide, by decide⟩

/-- C5: for the RGBA buffer sink with `has_alpha = false`, every byte the
stage writes at an alpha position (offset 3 mod 4 from the row base) is
255; the whole write list is independent of the contents of any alpha
plane (two inputs agreeing on the three color channels produce identical
writes, whatever their alpha planes hold); and every channel beyond the
three colors is reported `kIgnored`, so no alpha input row is even
requested from the pipeline. -/
theorem c5_opaque_alpha_default (cfg : U8Cfg) (rows rows2 : ℕ → ℕ → ℚ)
    (xe xs xp yp : ℕ) (hr : cfg.rgba = true) (hha : cfg.has_alpha = false)
    (hagree : ∀ c, c < 3 → rows c = rows2 c) :
    (∀ w ∈ writeToU8ProcessRow cfg rows xe xs xp yp,
       (w.1 - (yp * cfg.stride + 4 * (xp - xe))) % 4 = 3 → w.2 = 255) ∧
    writeToU8ProcessRow cfg rows xe xs xp yp
      = writeToU8ProcessRow cfg rows2 xe xs xp yp ∧
    (∀ c, 3 ≤ c → writeToU8GetChannelMode cfg c
      = RenderPipelineChannelMode.kIgnored) := by
  have hb : cfg.bytes = 4 := by
    unfold U8Cfg.bytes
    rw [hr]
    rfl
  have h255 : u8FromU32 (rne 255) = 255 := by
    unfold u8FromU32 rne
    norm_num [Int.fract]
    omega
  refine ⟨?_, ?_, ?_⟩
  · intro w hw hmod
    unfold writeToU8ProcessRow at hw
    by_cases hyp : cfg.height ≤ yp
    · rw [if_pos hyp] at hw
      simp at hw
    · rw [if_neg hyp] at hw
      rw [List.mem_flatMap] at hw
      obtain ⟨x, _, hw2⟩ := hw
      rw [hb, hr, hha] at hw2
      simp only [if_true, Bool.false_eq_true, if_false, h255, List.mem_append,
        List.mem_cons, List.mem_singleton, List.not_mem_nil, or_false] at hw2
      rcases hw2 with (rfl | rfl | rfl) | rfl
      · exfalso
        simp only at hmod
        omega
      · exfalso
        simp only at hmod
        omega
      · exfalso
        simp only at hmod
        omega
      · rfl
  · have h0 : rows 0 = rows2 0 := hagree 0 (by norm_num)
    have h1 : rows 1 = rows2 1 := hagree 1 (by norm_num)
    have h2 : rows 2 = rows2 2 := hagree 2 (by norm_num)
    unfold writeToU8ProcessRow
    rw [h0, h1, h2]
    simp only [hha, Bool.false_eq_true, if_false]
  · intro c hc3
    unfold writeToU8GetChannelMode
    rw [hha]
    simp [show ¬ (c < 3) by omega]

/-- Witness for C5 at the concrete poisoned-alpha configuration. -/
theorem c5_opaque_alpha_default_witness :
    (∀ w ∈ writeToU8ProcessRow c5Cfg c5Rows 0 1 0 0,
       (w.1 - (0 * c5Cfg.stride + 4 * (0 - 0))) % 4 = 3 → w.2 = 255) ∧
    writeToU8ProcessRow c5Cfg c5Rows 0 1 0 0
      = writeToU8ProcessRow c5Cfg c5Rows2 0 1 0 0 ∧
    (∀ c, 3 ≤ c → writeToU8GetChannelMode c5Cfg c
      = RenderPipelineChannelMode.kIgnored) :=
  c5_opaque_alpha_default c5Cfg c5Rows c5Rows2 0 1 0 0 rfl rfl
    (fun c hc => by
      funext x
      simp [c5Rows, c5Rows2, show c ≠ 3 by omega])

end StageWrite
